import Mathlib

/-!
Shallow embedding of the crypto_tracker_bot repository (crypto_bot/utils.py,
crypto_bot/api.py, crypto_bot/database.py, crypto_bot/bot.py,
crypto_bot/admin.py, crypto_bot/django_integration.py) together with proofs
about the embedded operations.  Python floats are modelled by rationals,
`None` by `Option.none`, exceptions by `Except`, and the SQLite / ORM stores
by association lists.
-/

namespace CryptoTracker

/-! ## utils.py -/

/-- The digit-span step of the literal scanner: split a character list into
its leading run of decimal digits and the rest. -/
def spanDigits : List Char → (List Char × List Char)
  | [] => ([], [])
  | c :: cs =>
    if c.isDigit then
      let (d, r) := spanDigits cs
      (c :: d, r)
    else ([], c :: cs)

/-- Numeric value of a digit run. -/
def digitsVal (l : List Char) : Nat :=
  l.foldl (fun acc c => acc * 10 + (c.toNat - 48)) 0

/-- Split an optional leading sign, returning the sign as `1` or `-1`. -/
def splitSign : List Char → (Int × List Char)
  | '+' :: cs => (1, cs)
  | '-' :: cs => (-1, cs)
  | cs => (1, cs)

/-- Parse the optional exponent tail (`e`/`E`, optional sign, digits) that may
end a Python decimal literal; returns the exponent value, `none` when the tail
is not a valid exponent or the input is nonempty garbage. -/
def parseExpTail : List Char → Option Int
  | [] => some 0
  | 'e' :: cs =>
    let (sg, cs1) := splitSign cs
    let (d, r) := spanDigits cs1
    if d ≠ [] ∧ r = [] then some (sg * (digitsVal d : Int)) else none
  | 'E' :: cs =>
    let (sg, cs1) := splitSign cs
    let (d, r) := spanDigits cs1
    if d ≠ [] ∧ r = [] then some (sg * (digitsVal d : Int)) else none
  | _ => none

/-- Value of a decimal literal `sign * (ip . fp) * 10 ^ ex` as a rational. -/
def litVal (sg : Int) (ip fp : List Char) (ex : Int) : ℚ :=
  (sg : ℚ) * ((digitsVal ip : ℚ) + (digitsVal fp : ℚ) / (10 : ℚ) ^ fp.length)
    * (10 : ℚ) ^ ex

/-- Model of Python `float(s)` on a string argument, restricted to finite
decimal literals: optional sign, integer part and/or fractional part around an
optional point, optional exponent.  The special spellings `inf`/`nan` and
digit-group underscores are outside the model; on them and on every other
malformed string the result is `none` (Python raises `ValueError`, which
`parse_number` catches). -/
def pythonFloat (s : String) : Option ℚ :=
  let (sg, cs) := splitSign s.data
  let (ip, r1) := spanDigits cs
  match r1 with
  | '.' :: r2 =>
    let (fp, r3) := spanDigits r2
    if ip = [] ∧ fp = [] then none
    else
      match parseExpTail r3 with
      | some ex => some (litVal sg ip fp ex)
      | none => none
  | _ =>
    if ip = [] then none
    else
      match parseExpTail r1 with
      | some ex => some (litVal sg ip [] ex)
      | none => none

/-- `utils.parse_number`: turn each comma into a dot, strip spaces (the two
single-character `str.replace` calls, applied per character), and run Python
`float`; a parse failure is caught and returned as `none`. -/
def parse_number (text : String) : Option ℚ :=
  pythonFloat (String.mk
    ((text.data.map fun c => if c = ',' then '.' else c).filter fun c => c ≠ ' '))

/-- `utils.calculate_profit`. -/
def calculate_profit (amount buy_price current_price : ℚ)
    (fee_percent : ℚ := 3) : ℚ × ℚ :=
  let initial_investment := amount * buy_price
  let current_value := amount * current_price * (1 - fee_percent / 100)
  let profit := current_value - initial_investment
  let profit_percent :=
    if initial_investment > 0 then profit / initial_investment * 100 else 0
  (profit, profit_percent)

/-! ## api.py

`requests.get` is modelled by an oracle describing what the HTTP layer did:
a response (status, optionally parseable JSON body, body text), a timeout,
another `requests` exception, or any other exception.  A parsed body is an
association list `coin_id → currency → price`. -/

abbrev ApiData := List (String × List (String × ℚ))

inductive ReqOutcome where
  | resp (status : Nat) (body : Option ApiData) (text : String)
  | timeoutExc
  | requestExc (msg : String)
  | otherExc (msg : String)
deriving Repr, DecidableEq

/-- Python exception classes that can escape the `try` body of
`get_coin_price`, with the class hierarchy needed by its handlers. -/
inductive PyExc where
  | rateLimit (msg : String)
  | apiResponse (msg : String)
  | timeout
  | request (msg : String)
  | other (msg : String)
deriving Repr, DecidableEq

/-- `except Timeout` matches only `requests.exceptions.Timeout`. -/
def PyExc.matchesTimeout : PyExc → Bool
  | .timeout => true
  | _ => false

/-- `except RequestException` matches `Timeout` and other request errors, but
not the bot's own `CryptoAPIError` subclasses nor arbitrary exceptions. -/
def PyExc.matchesRequestExc : PyExc → Bool
  | .timeout => true
  | .request _ => true
  | _ => false

/-- Errors of the `CryptoAPIError` category that `get_coin_price` can raise
to its caller. -/
inductive ApiError where
  | rateLimitError (msg : String)
  | connectionError (msg : String)
  | responseError (msg : String)
deriving Repr, DecidableEq

def lookup2 (d : ApiData) (coin currency : String) : Option ℚ :=
  match d.lookup coin with
  | some inner => inner.lookup currency
  | none => none

def rateLimitMsg : String := "Превышен лимит запросов к API"

def timeoutMsg : String := "Таймаут при запросе к API"

/-- The `try` body of `api.get_coin_price`: issue the request, and on a 200
response read the price out of the expected shape; a 429 raises
`RateLimitError`, any other status raises `APIResponseError`, and the
transport itself may raise. -/
def getCoinPriceBody (o : ReqOutcome) (coin currency : String) :
    Except PyExc (Option ℚ × Option String) :=
  match o with
  | .resp status body text =>
    if status = 200 then
      match body with
      | none => .error (.other "invalid json body")
      | some data =>
        match lookup2 data coin currency with
        | some price => .ok (some price, none)
        | none => .ok (none, "Некорректная структура ответа API")
    else if status = 429 then .error (.rateLimit rateLimitMsg)
    else .error (.apiResponse ("API вернул ошибку: " ++ toString status ++ " - " ++ text))
  | .timeoutExc => .error .timeout
  | .requestExc m => .error (.request m)
  | .otherExc m => .error (.other m)

/-- `api.get_coin_price`: the `try` body above wrapped in the function's own
handler chain `except Timeout` / `except RequestException` /
`except Exception`, in that order. -/
def get_coin_price (o : ReqOutcome) (coin : String)
    (currency : String := "rub") : Except ApiError (Option ℚ × Option String) :=
  match getCoinPriceBody o coin currency with
  | .ok r => .ok r
  | .error e =>
    if e.matchesTimeout then .error (.connectionError timeoutMsg)
    else if e.matchesRequestExc then .error (.connectionError "Ошибка запроса к API")
    else .ok (none, "Неожиданная ошибка при запросе к API")

/-- `api.get_multiple_prices`: one request for a comma-joined id list; a 200
response is read per id, anything else — a bad status, a bad body, or any
exception (the function ends in `except Exception`) — degrades every
requested id to `none`.  The `Except` layer records that nothing escapes. -/
def get_multiple_prices (o : ReqOutcome) (coin_ids : List String)
    (currency : String := "rub") : Except ApiError (List (String × Option ℚ)) :=
  match o with
  | .resp status body _ =>
    if status = 200 then
      match body with
      | none => .ok (coin_ids.map fun i => (i, none))
      | some data => .ok (coin_ids.map fun i => (i, lookup2 data i currency))
    else .ok (coin_ids.map fun i => (i, none))
  | _ => .ok (coin_ids.map fun i => (i, none))

/-- Does an `api` call raise a rate-limit error? -/
def raisesRateLimit : Except ApiError α → Bool
  | .error (.rateLimitError _) => true
  | _ => false

/-- Does an `Except`-modelled call return normally? -/
def exceptOk : Except ε α → Bool
  | .ok _ => true
  | .error _ => false

/-- Is a raised error a connection error? -/
def raisedConnectionOnly : Except ApiError α → Bool
  | .error (.connectionError _) => true
  | .error _ => false
  | .ok _ => true

/-! ## database.py — the embedded (SQLite) store

A `user_settings` row; the `chat_id` key is kept outside the row.  All four
numeric columns are nullable in the schema, `coin_id` is `NOT NULL`. -/

structure Row where
  coin_id : String
  balance : Option ℚ
  threshold : Option ℚ
  depozit : Option ℚ
  last_notified_price : Option ℚ
deriving Repr, DecidableEq

/-- The `user_settings` table. -/
abbrev Store := List (Int × Row)

/-- The whole SQLite file: the two tables and whether `init_db` created
them. -/
structure DbState where
  tablesCreated : Bool
  users : Store
  coin_prices : List (String × ℚ)
deriving Repr, DecidableEq

/-- Storage-layer (`sqlite3.Error`) failures. -/
inductive DbErr where
  | sqliteError (msg : String)
deriving Repr, DecidableEq

/-- One SQLite interaction: the backend either performs the statements and
yields their result, or raises `sqlite3.Error`.  The `fail` flag is the
failure oracle for the whole connection. -/
def dbExec (fail : Bool) (x : α) : Except DbErr α :=
  if fail then .error (.sqliteError "db failure") else .ok x

/-- Python truthiness-based defaulting `x or d` on an optional number:
`None` and `0` are falsy. -/
def pyOrQ (x : Option ℚ) (d : ℚ) : ℚ :=
  match x with
  | none => d
  | some v => if v = 0 then d else v

/-- Python `x or d` on an optional string: `None` and `""` are falsy. -/
def pyOrS (x : Option String) (d : String) : String :=
  match x with
  | none => d
  | some v => if v = "" then d else v

/-- `value if value is not None else current` — the field-level merge used on
the UPDATE path. -/
def mergeOpt (arg cur : Option α) : Option α :=
  match arg with
  | some v => some v
  | none => cur

/-- The optional keyword arguments of `update_user_settings`. -/
structure Args where
  coin_id : Option String
  balance : Option ℚ
  threshold : Option ℚ
  depozit : Option ℚ
  last_notified_price : Option ℚ
deriving Repr, DecidableEq

def Args.empty : Args := ⟨none, none, none, none, none⟩

/-- Replace the first row keyed `chat` by `r`. -/
def storeSet (st : Store) (chat : Int) (r : Row) : Store :=
  match st with
  | [] => []
  | (c, r0) :: rest =>
    if c = chat then (c, r) :: rest else (c, r0) :: storeSet rest chat r

/-- The statements inside `update_user_settings`' `try`: select the existing
row; if present, UPDATE with the is-not-None merge; otherwise INSERT, with
`or`-defaults for `coin_id`, `threshold`, `depozit`, `last_notified_price`
and `balance` stored as given. -/
def update_user_settings_stmts (st : Store) (chat : Int) (a : Args) :
    Bool × Store :=
  match st.lookup chat with
  | some row =>
    let newRow : Row :=
      ⟨a.coin_id.getD row.coin_id,
        mergeOpt a.balance row.balance,
        mergeOpt a.threshold row.threshold,
        mergeOpt a.depozit row.depozit,
        mergeOpt a.last_notified_price row.last_notified_price⟩
    (true, storeSet st chat newRow)
  | Option.none =>
    let newRow : Row :=
      ⟨pyOrS a.coin_id "fpi-bank",
        a.balance,
        some (pyOrQ a.threshold (1 / 10)),
        some (pyOrQ a.depozit 0),
        some (pyOrQ a.last_notified_price 0)⟩
    (true, (chat, newRow) :: st)

/-- `database.update_user_settings`: the statements above, with any
`sqlite3.Error` caught and turned into `False` (store unchanged). -/
def update_user_settings (fail : Bool) (st : Store) (chat : Int) (a : Args) :
    Bool × Store :=
  match dbExec fail (update_user_settings_stmts st chat a) with
  | .ok r => r
  | .error _ => (false, st)

/-- `database.get_user_settings`: single-row SELECT; `None` if the row is
missing or on a storage failure. -/
def get_user_settings (fail : Bool) (st : Store) (chat : Int) : Option Row :=
  match dbExec fail (st.lookup chat) with
  | .ok r => r
  | .error _ => none

/-- `database.load_all_user_settings`: full-table SELECT; an empty mapping on
a storage failure. -/
def load_all_user_settings (fail : Bool) (st : Store) : Store :=
  match dbExec fail st with
  | .ok r => r
  | .error _ => []

/-- The DELETE statement inside `remove_user`: drop the row and report
whether one was dropped. -/
def remove_user_stmts (st : Store) (chat : Int) : Bool × Store :=
  ((st.lookup chat).isSome, st.filter fun e => e.1 ≠ chat)

/-- `database.remove_user`: `False` on a storage failure. -/
def remove_user (fail : Bool) (st : Store) (chat : Int) : Bool × Store :=
  match dbExec fail (remove_user_stmts st chat) with
  | .ok r => r
  | .error _ => (false, st)

/-- Upsert into the `coin_prices` table (`INSERT OR REPLACE`). -/
def upsertPrice (prices : List (String × ℚ)) (coin : String) (p : ℚ) :
    List (String × ℚ) :=
  match prices with
  | [] => [(coin, p)]
  | (c, q) :: rest =>
    if c = coin then (c, p) :: rest else (c, q) :: upsertPrice rest coin p

/-- `database.update_coin_price`: upsert; a storage failure leaves the table
unchanged (the error is caught and logged, nothing is returned). -/
def update_coin_price (fail : Bool) (prices : List (String × ℚ))
    (coin : String) (p : ℚ) : List (String × ℚ) :=
  match dbExec fail (upsertPrice prices coin p) with
  | .ok r => r
  | .error _ => prices

/-- `database.get_coin_price`: cached price or `None` (also on failure). -/
def get_coin_price_db (fail : Bool) (prices : List (String × ℚ))
    (coin : String) : Option ℚ :=
  match dbExec fail (prices.lookup coin) with
  | .ok r => r
  | .error _ => none

/-- `database.get_users_count`: row count, `0` on failure. -/
def get_users_count (fail : Bool) (st : Store) : Nat :=
  match dbExec fail st.length with
  | .ok r => r
  | .error _ => 0

/-- `database.init_db`: CREATE TABLE IF NOT EXISTS for both tables; unlike
every other operation its handler logs and then RE-RAISES the
`sqlite3.Error`. -/
def init_db (fail : Bool) (db : DbState) : Except DbErr DbState :=
  match dbExec fail { db with tablesCreated := true } with
  | .ok r => .ok r
  | .error e => .error e

/-- A sequence of `update_user_settings` calls for one chat id (each with its
own failure flag forced off: the claims about upsert semantics concern the
non-failing path). -/
def applyCalls (st : Store) (chat : Int) (calls : List Args) : Store :=
  calls.foldl (fun s a => (update_user_settings false s chat a).2) st

/-- The last non-absent value supplied for one field across a sequence of
calls (later calls win). -/
def lastSupplied (f : Args → Option α) (calls : List Args) : Option α :=
  calls.foldl (fun acc a => mergeOpt (f a) acc) none

/-! ## bot.py and admin.py

An in-memory settings record, as created by `send_welcome` and as loaded
from the store by `load_all_user_settings` (`threshold` and `depozit` are
always populated there, `balance` and `last_notified_price` may be `None`). -/

structure Settings where
  coin_id : String
  balance : Option ℚ
  threshold : ℚ
  depozit : ℚ
  last_notified_price : Option ℚ
deriving Repr, DecidableEq

/-- The in-memory `user_settings` map of bot.py. -/
abbrev Mem := List (Int × Settings)

/-- Exceptions a Telegram delivery can raise into a send path. -/
inductive SendExc where
  | apiTelegramException (code : Nat) (desc : String)
  | requestException (msg : String)
  | otherException (msg : String)
deriving Repr, DecidableEq

def blockedDesc : String := "bot was blocked by the user"

/-- Python's substring test `pat in s`, on character lists. -/
def containsSub (pat l : List Char) : Bool :=
  l.tails.any fun t => pat.isPrefixOf t

/-- The blocked-recipient test used by both send paths:
`error_code == 403 and "bot was blocked by the user" in description`. -/
def isBlockedError (code : Nat) (desc : String) : Bool :=
  code == 403 && containsSub blockedDesc.data desc.data

/-- A delivery outcome that is a blocked-recipient failure. -/
def isBlockedOutcome : Option SendExc → Bool
  | some (.apiTelegramException code desc) => isBlockedError code desc
  | _ => false

/-- The bot process state touched by the send and polling paths: the
in-memory map, the two store tables, and a log of delivery attempts
`(chat, text)` (an attempt with outcome `none` is a successful delivery). -/
structure BotState where
  mem : Mem
  store : Store
  coinPrices : List (String × ℚ)
  sent : List (Int × String)
deriving Repr, DecidableEq

/-- `del user_settings[chat_id]` guarded by membership. -/
def eraseChat (m : Mem) (chat : Int) : Mem :=
  m.filter fun e => e.1 ≠ chat

/-- `bot.send_message`, the single outbound choke point: attempt the
delivery; on an `ApiTelegramException` that is a blocked-recipient failure,
remove the user from the store and from the in-memory map; every other
failure is logged and otherwise ignored. -/
def send_message (exc : Option SendExc) (chat : Int) (msg : String)
    (st : BotState) : BotState :=
  let st1 := { st with sent := st.sent ++ [(chat, msg)] }
  match exc with
  | none => st1
  | some (.apiTelegramException code desc) =>
    if isBlockedError code desc then
      { st1 with store := (remove_user false st1.store chat).2,
                 mem := eraseChat st1.mem chat }
    else st1
  | some _ => st1

/-- One recipient of `admin.broadcast_message`: deliver, tally success or
failure, and on a blocked-recipient failure delete the row from the store
(the in-memory map is not visible from admin.py). -/
def bstep (deliver : Int → Option SendExc) (acc : (Nat × Nat) × Store)
    (chat : Int) : (Nat × Nat) × Store :=
  match deliver chat with
  | none => ((acc.1.1 + 1, acc.1.2), acc.2)
  | some (.apiTelegramException code desc) =>
    if isBlockedError code desc then
      ((acc.1.1, acc.1.2 + 1), (remove_user false acc.2 chat).2)
    else ((acc.1.1, acc.1.2 + 1), acc.2)
  | some _ => ((acc.1.1, acc.1.2 + 1), acc.2)

/-- `admin.broadcast_message`: list every chat id from `user_settings` (a
failure there is caught and reported as a zero/zero broadcast), then send to
each listed id in turn; returns the `(success, failed)` tally and the store
as mutated by blocked-recipient removals.  `deliver` is the per-recipient
delivery oracle. -/
def broadcast_message (listFails : Bool) (deliver : Int → Option SendExc)
    (st : Store) (_text : String) : (Nat × Nat) × Store :=
  if listFails then ((0, 0), st)
  else (st.map Prod.fst).foldl (bstep deliver) ((0, 0), st)

/-- A broadcast as it affects the whole bot process state:
`admin.broadcast_message` reads and writes only the database; bot.py's
in-memory `user_settings` map is never referenced by it. -/
def broadcast_step (listFails : Bool) (deliver : Int → Option SendExc)
    (bs : BotState) (text : String) : (Nat × Nat) × BotState :=
  let r := broadcast_message listFails deliver bs.store text
  (r.1, { bs with store := r.2 })

/-- The keyword argument set of the polling loop's store write
`update_user_settings(chat_id, last_notified_price=price)`. -/
def lastArg (p : ℚ) : Args := ⟨none, none, none, none, some p⟩

/-- `user_settings[chat_id]["last_notified_price"] = price`. -/
def setLast (m : Mem) (chat : Int) (p : ℚ) : Mem :=
  m.map fun e =>
    if e.1 = chat then (e.1, { e.2 with last_notified_price := some p }) else e

/-- Display name and currency from `DEFAULT_COINS`, with the fallbacks used
in bot.py. -/
def coinDisplay (coin : String) : String × String :=
  if coin = "fpi-bank" then ("FPI Bank", "RUB") else (coin.toUpper, "RUB")

/-- The notification message of the polling loop (numeric f-string
formatting abbreviated to `toString`). -/
def notification_text (coin : String) (price balval dep : ℚ) : String :=
  let d := coinDisplay coin
  let base := "Стоимость " ++ d.1 ++ ": " ++ toString price ++ " " ++ d.2
    ++ "\nБаланс: " ++ toString balval ++ " " ++ d.2
  if 0 < dep then
    base ++ "\nВложено: " ++ toString dep ++ " " ++ d.2
      ++ "\nПрибыль: " ++ toString (balval - dep) ++ " " ++ d.2
  else base

/-- The per-user body of one `price_checker` cycle, applied to an entry of
the snapshot `list(user_settings.items())`: skip a user whose coin has no
fetched price; with `balance` or `last_notified_price` absent, record the
fetched price as the new baseline (memory and store) without sending;
otherwise send exactly one notification when the delta reaches the
threshold and then (if the user survived the send) persist the new
baseline; below the threshold do nothing. -/
def process_user (prices : List (String × Option ℚ))
    (deliver : Int → Option SendExc) (st : BotState) (entry : Int × Settings) :
    BotState :=
  let chat := entry.1
  let s := entry.2
  if s.coin_id = "" then st
  else
    match prices.lookup s.coin_id with
    | some (some p) =>
      match s.balance, s.last_notified_price with
      | some b, some l =>
        if s.threshold ≤ |p - l| then
          let st1 := send_message (deliver chat) chat
            (notification_text s.coin_id p (b * p * (97 / 100)) s.depozit) st
          if (st1.mem.lookup chat).isSome then
            { st1 with mem := setLast st1.mem chat p,
                       store := (update_user_settings false st1.store chat
                         (lastArg p)).2 }
          else st1
        else st
      | _, _ =>
        { st with mem := setLast st.mem chat p,
                  store := (update_user_settings false st.store chat
                    (lastArg p)).2 }
    | _ => st

/-- One iteration of the `price_checker` loop body (the non-raising path):
when no user references any coin the cycle does nothing; otherwise process
every user of the snapshot against `prices` — the mapping returned by
`api.get_multiple_prices` for the collected coin ids — and finally upsert
every successfully fetched price into the `coin_prices` cache. -/
def price_checker_cycle (prices : List (String × Option ℚ))
    (deliver : Int → Option SendExc) (st : BotState) : BotState :=
  if st.mem.isEmpty then st
  else
    let st1 := st.mem.foldl (process_user prices deliver) st
    { st1 with coinPrices := prices.foldl (fun cp e =>
        match e.2 with
        | some p => update_coin_price false cp e.1 p
        | none => cp) st1.coinPrices }

/-- Number of delivery attempts addressed to `chat`. -/
def sentCount (st : BotState) (chat : Int) : Nat :=
  st.sent.countP fun e => e.1 == chat

/-! ## django_integration.py — the ORM-backed store -/

structure Crypto where
  coin_id : String
  name : String
  currency : String
deriving Repr, DecidableEq

/-- One `PriceData` row; `timestamp` is the `auto_now_add` creation instant,
modelled by a strictly monotone counter (`OrmState.clock`). -/
structure PriceRow where
  rowId : Nat
  coinId : String
  price : ℚ
  timestamp : Nat
deriving Repr, DecidableEq

structure OrmState where
  cryptos : List Crypto
  priceRows : List PriceRow
  clock : Nat
deriving Repr, DecidableEq

/-- `django_integration.get_or_create_cryptocurrency`: create-if-missing;
the display name defaults to the upper-cased id and the currency to `rub`,
on first creation only. -/
def get_or_create_cryptocurrency (st : OrmState) (coin : String)
    (name currency : Option String) : OrmState :=
  if st.cryptos.any fun c => c.coin_id == coin then st
  else { st with cryptos :=
    st.cryptos ++ [⟨coin, pyOrS name coin.toUpper, pyOrS currency "rub"⟩] }

/-- `django_integration.update_coin_price`: ensure the cryptocurrency row
exists, then `PriceData.objects.create(...)` — append a fresh history row;
no existing row is modified. -/
def orm_update_coin_price (st : OrmState) (coin : String) (p : ℚ) : OrmState :=
  let st1 := get_or_create_cryptocurrency st coin none none
  { st1 with priceRows := st1.priceRows ++ [⟨st1.clock, coin, p, st1.clock⟩],
             clock := st1.clock + 1 }

/-- `order_by('-timestamp').first()` over a row list: the row with the
greatest timestamp (the earliest such row on a tie, matching the stable
sort). -/
def latestRow (l : List PriceRow) : Option PriceRow :=
  l.foldl (fun acc r =>
    match acc with
    | none => some r
    | some b => if b.timestamp < r.timestamp then some r else acc) none

/-- `django_integration.get_coin_price`: latest observation for the asset,
or `None` when there is none. -/
def orm_get_coin_price (st : OrmState) (coin : String) : Option ℚ :=
  match latestRow (st.priceRows.filter fun r => r.coinId == coin) with
  | some r => some r.price
  | none => none

/-- Reachable-state invariant of the ORM store: every stored observation was
created at an instant before the current clock. -/
def clockWF (st : OrmState) : Prop :=
  ∀ r ∈ st.priceRows, r.timestamp < st.clock

/-! # Theorems -/

/-- C8: `parse_number` is total — for every string it returns a rational or
`none` and never raises; `parse_number "1,5" = 1.5`;
`parse_number "abc"` is absent. -/
theorem parse_number_total_and_examples :
    (∀ s : String, parse_number s = none ∨ ∃ q : ℚ, parse_number s = some q) ∧
    parse_number "1,5" = some (3 / 2) ∧
    parse_number "abc" = none := by
  refine ⟨fun s => ?_, ?_, rfl⟩
  · cases h : parse_number s with
    | none => exact Or.inl rfl
    | some q => exact Or.inr ⟨q, rfl⟩
  · have h : parse_number "1,5" = some (litVal 1 ['1'] ['5'] 0) := rfl
    have h1 : digitsVal ['1'] = 1 := by decide
    have h5 : digitsVal ['5'] = 5 := by decide
    rw [h]
    simp [litVal, h1, h5]
    norm_num

/-- C9: `calculate_profit` computes `initial = amount * buy_price`,
`current_value = amount * current_price * (1 - fee_percent / 100)`,
`profit = current_value - initial`, and
`profit_percent = profit / initial * 100` for positive `initial` and `0`
otherwise; at `(10, 100, 120, 3.0)` it returns `(164.0, 16.4)`. -/
theorem calculate_profit_formula_and_example :
    (∀ amount buy_price current_price fee_percent : ℚ,
      calculate_profit amount buy_price current_price fee_percent =
        (amount * current_price * (1 - fee_percent / 100) - amount * buy_price,
         if amount * buy_price > 0 then
           (amount * current_price * (1 - fee_percent / 100) -
             amount * buy_price) / (amount * buy_price) * 100
         else 0)) ∧
    calculate_profit 10 100 120 3 = (164, 82 / 5) := by
  constructor
  · intro a b c f
    rfl
  · norm_num [calculate_profit]

/-- C1: at the failing input — an HTTP 429 response — `get_coin_price`
returns `(None, error-message)` instead of raising `RateLimitError`: the
raise inside the `try` body is captured by the function's own terminal
`except Exception` handler; the same interception happens to the
`APIResponseError` raise for any other non-200 status, while the timeout
path does raise a connection error as documented. -/
theorem get_coin_price_swallows_status_raises :
    get_coin_price (.resp 429 none "Too Many Requests") "fpi-bank" "rub" =
      .ok (none, "Неожиданная ошибка при запросе к API") ∧
    get_coin_price (.resp 500 none "server error") "fpi-bank" "rub" =
      .ok (none, "Неожиданная ошибка при запросе к API") ∧
    get_coin_price .timeoutExc "fpi-bank" "rub" =
      .error (.connectionError timeoutMsg) := by
  refine ⟨rfl, rfl, rfl⟩

/-- C5 counterexample: the claim says every embedded-store operation —
`init` included — catches storage failures; but `init_db` re-raises
`sqlite3.Error`, so on a failing backend the exception propagates. -/
theorem init_db_propagates_storage_error :
    init_db true ⟨false, [], []⟩ = .error (.sqliteError "db failure") := rfl

/-- C5 (amended): every embedded-store operation except `init` catches
storage-layer errors and degrades to its safe default (unchanged
store/`false`, `none`, empty mapping, `0`) — but `init_db` propagates the
storage error to its caller (startup treats it as fatal), succeeding only on
a healthy backend. -/
theorem store_failure_policy :
    ∀ (st : Store) (prices : List (String × ℚ)) (db : DbState) (chat : Int)
      (a : Args) (coin : String) (p : ℚ),
      update_user_settings true st chat a = (false, st) ∧
      get_user_settings true st chat = none ∧
      load_all_user_settings true st = [] ∧
      remove_user true st chat = (false, st) ∧
      update_coin_price true prices coin p = prices ∧
      get_coin_price_db true prices coin = none ∧
      get_users_count true st = 0 ∧
      exceptOk (init_db true db) = false ∧
      exceptOk (init_db false db) = true := by
  intro st prices db chat a coin p
  refine ⟨rfl, rfl, rfl, rfl, rfl, rfl, rfl, rfl, rfl⟩

/-- C6: for every possible price-source outcome, `get_multiple_prices` — the
only fetch the polling loop performs — returns a mapping and never raises,
and `get_coin_price` never lets a rate-limit error escape (its own
`except Exception` intercepts the `RateLimitError` raised on a 429; the only
errors it ever raises are connection errors).  Hence no sequence of
responses ever makes the loop's `except RateLimitError` branch run. -/
theorem rate_limit_error_never_escapes :
    ∀ (o : ReqOutcome) (ids : List String) (coin currency : String),
      exceptOk (get_multiple_prices o ids currency) = true ∧
      raisesRateLimit (get_coin_price o coin currency) = false ∧
      raisedConnectionOnly (get_coin_price o coin currency) = true := by
  intro o ids coin currency
  refine ⟨?_, ?_, ?_⟩
  · cases o with
    | resp status body text =>
      by_cases h : status = 200
      · cases body <;> simp [get_multiple_prices, h, exceptOk]
      · simp [get_multiple_prices, h, exceptOk]
    | timeoutExc => rfl
    | requestExc m => rfl
    | otherExc m => rfl
  · cases o with
    | resp status body text =>
      by_cases h : status = 200
      · cases body with
        | none =>
          simp [get_coin_price, getCoinPriceBody, h, PyExc.matchesTimeout,
            PyExc.matchesRequestExc, raisesRateLimit]
        | some data =>
          cases hl : lookup2 data coin currency <;>
            simp [get_coin_price, getCoinPriceBody, h, hl, raisesRateLimit]
      · by_cases h429 : status = 429 <;>
          simp [get_coin_price, getCoinPriceBody, h, h429, PyExc.matchesTimeout,
            PyExc.matchesRequestExc, raisesRateLimit]
    | timeoutExc => rfl
    | requestExc m => rfl
    | otherExc m => rfl
  · cases o with
    | resp status body text =>
      by_cases h : status = 200
      · cases body with
        | none =>
          simp [get_coin_price, getCoinPriceBody, h, PyExc.matchesTimeout,
            PyExc.matchesRequestExc, raisedConnectionOnly]
        | some data =>
          cases hl : lookup2 data coin currency <;>
            simp [get_coin_price, getCoinPriceBody, h, hl, raisedConnectionOnly]
      · by_cases h429 : status = 429 <;>
          simp [get_coin_price, getCoinPriceBody, h, h429, PyExc.matchesTimeout,
            PyExc.matchesRequestExc, raisedConnectionOnly]
    | timeoutExc => rfl
    | requestExc m => rfl
    | otherExc m => rfl

theorem mergeOpt_none_right (x : Option α) : mergeOpt x none = x := by
  cases x <;> rfl

theorem pyOrQ_getD_zero (x : Option ℚ) : pyOrQ x 0 = x.getD 0 := by
  cases x with
  | none => rfl
  | some v =>
    simp only [pyOrQ, Option.getD_some]
    split <;> simp_all

theorem pyOrQ_of_ne (x : Option ℚ) (d : ℚ) (h : x ≠ some 0) :
    pyOrQ x d = x.getD d := by
  cases x with
  | none => rfl
  | some v =>
    have hv : v ≠ 0 := fun hz => h (by rw [hz])
    simp [pyOrQ, hv]

theorem pyOrS_of_ne (x : Option String) (d : String) (h : x ≠ some "") :
    pyOrS x d = x.getD d := by
  cases x with
  | none => rfl
  | some v =>
    have hv : v ≠ "" := fun hz => h (by rw [hz])
    simp [pyOrS, hv]

theorem lookup_cons_self (c : Int) (r : α) (l : List (Int × α)) :
    ((c, r) :: l).lookup c = some r := by
  simp [List.lookup]

theorem lookup_cons_ne (c d : Int) (r : α) (l : List (Int × α)) (h : c ≠ d) :
    ((d, r) :: l).lookup c = l.lookup c := by
  have hb : (c == d) = false := beq_eq_false_iff_ne.mpr h
  simp [List.lookup, hb]

theorem lookup_storeSet_self (c : Int) (r : Row) :
    ∀ st : Store, (st.lookup c).isSome → (storeSet st c r).lookup c = some r := by
  intro st
  induction st with
  | nil => intro h; simp [List.lookup] at h
  | cons e rest ih =>
    intro h
    obtain ⟨k, r0⟩ := e
    simp only [storeSet]
    split_ifs with hk
    · subst hk
      exact lookup_cons_self k r rest
    · have hck : c ≠ k := fun hx => hk hx.symm
      rw [lookup_cons_ne c k r0 rest hck] at h
      rw [lookup_cons_ne c k r0 (storeSet rest c r) hck]
      exact ih h

theorem lookup_storeSet_ne (c d : Int) (r : Row) (h : c ≠ d) :
    ∀ st : Store, (storeSet st d r).lookup c = st.lookup c := by
  intro st
  induction st with
  | nil => rfl
  | cons e rest ih =>
    obtain ⟨k, r0⟩ := e
    simp only [storeSet]
    split_ifs with hk
    · subst hk
      rw [lookup_cons_ne c k r rest h, lookup_cons_ne c k r0 rest h]
    · by_cases hck : c = k
      · subst hck
        rw [lookup_cons_self, lookup_cons_self]
      · rw [lookup_cons_ne c k r0 (storeSet rest d r) hck,
          lookup_cons_ne c k r0 rest hck]
        exact ih

/-- The merged row visible under the written key after one upsert. -/
def upsertRow (existing : Option Row) (a : Args) : Row :=
  match existing with
  | some row =>
    ⟨a.coin_id.getD row.coin_id,
      mergeOpt a.balance row.balance,
      mergeOpt a.threshold row.threshold,
      mergeOpt a.depozit row.depozit,
      mergeOpt a.last_notified_price row.last_notified_price⟩
  | none =>
    ⟨pyOrS a.coin_id "fpi-bank",
      a.balance,
      some (pyOrQ a.threshold (1 / 10)),
      some (pyOrQ a.depozit 0),
      some (pyOrQ a.last_notified_price 0)⟩

theorem update_stmts_lookup_self (st : Store) (c : Int) (a : Args) :
    ((update_user_settings_stmts st c a).2).lookup c =
      some (upsertRow (st.lookup c) a) := by
  cases h : st.lookup c with
  | some row =>
    simp only [update_user_settings_stmts, h, upsertRow]
    exact lookup_storeSet_self c _ st (by rw [h]; rfl)
  | none =>
    simp only [update_user_settings_stmts, h, upsertRow]
    exact lookup_cons_self c _ st

theorem update_stmts_lookup_ne (st : Store) (c d : Int) (a : Args)
    (h : c ≠ d) :
    ((update_user_settings_stmts st d a).2).lookup c = st.lookup c := by
  cases hd : st.lookup d with
  | some row =>
    simp only [update_user_settings_stmts, hd]
    exact lookup_storeSet_ne c d _ h st
  | none =>
    simp only [update_user_settings_stmts, hd]
    exact lookup_cons_ne c d _ st h

theorem applyCalls_lookup_existing (chat : Int) (calls : List Args) :
    ∀ (st : Store) (r : Row), st.lookup chat = some r →
      (applyCalls st chat calls).lookup chat = some
        ⟨calls.foldl (fun cur x => x.coin_id.getD cur) r.coin_id,
         calls.foldl (fun cur x => mergeOpt x.balance cur) r.balance,
         calls.foldl (fun cur x => mergeOpt x.threshold cur) r.threshold,
         calls.foldl (fun cur x => mergeOpt x.depozit cur) r.depozit,
         calls.foldl (fun cur x => mergeOpt x.last_notified_price cur)
           r.last_notified_price⟩ := by
  induction calls with
  | nil => intro st r h; simpa [applyCalls] using h
  | cons a calls ih =>
    intro st r h
    have hstep : applyCalls st chat (a :: calls) =
        applyCalls ((update_user_settings_stmts st chat a).2) chat calls := rfl
    rw [hstep]
    have hlook : ((update_user_settings_stmts st chat a).2).lookup chat =
        some (upsertRow (st.lookup chat) a) := update_stmts_lookup_self st chat a
    rw [h] at hlook
    simpa [upsertRow] using ih _ _ hlook

theorem foldl_mergeOpt_getD (f : Args → Option α) (calls : List Args) :
    ∀ (x : Option α) (d : α),
      calls.foldl (fun cur a => mergeOpt (f a) cur) (some (x.getD d)) =
        some ((calls.foldl (fun cur a => mergeOpt (f a) cur) x).getD d) := by
  induction calls with
  | nil => intro x d; rfl
  | cons a calls ih =>
    intro x d
    cases hfa : f a with
    | none => simpa [mergeOpt, hfa] using ih x d
    | some v => simpa [mergeOpt, hfa] using ih (some v) d

theorem foldl_getD_eq (f : Args → Option α) (calls : List Args) :
    ∀ (x : Option α) (c0 : α),
      calls.foldl (fun cur a => (f a).getD cur) (x.getD c0) =
        (calls.foldl (fun cur a => mergeOpt (f a) cur) x).getD c0 := by
  induction calls with
  | nil => intro x c0; rfl
  | cons a calls ih =>
    intro x c0
    cases hfa : f a with
    | none => simpa [mergeOpt, hfa] using ih x c0
    | some v => simpa [mergeOpt, hfa] using ih (some v) c0

theorem lastSupplied_cons (f : Args → Option α) (a : Args) (rest : List Args) :
    lastSupplied f (a :: rest) =
      rest.foldl (fun cur x => mergeOpt (f x) cur) (f a) := by
  simp [lastSupplied, List.foldl, mergeOpt_none_right]

/-- C3 counterexample: one `update_user_settings` call for an unseen chat
supplying `threshold = 0.0` (a non-absent value) stores the default `0.1`,
because the insert path defaults with Python `or`, which treats `0.0` as
absent — contradicting "defaults applied only to fields left absent". -/
theorem update_user_settings_insert_defaults_falsy_threshold :
    ((update_user_settings false [] 1 ⟨none, none, some 0, none, none⟩).2).lookup 1 =
      some ⟨"fpi-bank", none, some (1 / 10), some 0, some 0⟩ ∧
    (1 / 10 : ℚ) ≠ 0 := by
  constructor
  · rfl
  · norm_num

/-- C3 (amended): for any sequence of `update_user_settings` calls for a
previously unseen chat whose FIRST call does not supply a Python-falsy
`threshold` (`0.0`) or `coin_id` (`""`), the final stored record holds, per
field, the last non-absent supplied value; `coin_id`/`threshold`/`depozit`/
`last_notified_price` default to `"fpi-bank"`/`0.1`/`0`/`0` only when absent
at the first insert, `balance` is stored as given, and on every later call
an absent argument preserves the stored value.  (Falsy first-call values are
replaced by the defaults — the counterexample — which is observable exactly
for `threshold` and `coin_id`.) -/
theorem update_user_settings_upsert_semantics
    (chat : Int) (a : Args) (rest : List Args)
    (hth : a.threshold ≠ some 0)
    (hcoin : a.coin_id ≠ some "") :
    (applyCalls [] chat (a :: rest)).lookup chat =
      some ⟨(lastSupplied (fun x => x.coin_id) (a :: rest)).getD "fpi-bank",
            lastSupplied (fun x => x.balance) (a :: rest),
            some ((lastSupplied (fun x => x.threshold) (a :: rest)).getD (1 / 10)),
            some ((lastSupplied (fun x => x.depozit) (a :: rest)).getD 0),
            some ((lastSupplied (fun x => x.last_notified_price) (a :: rest)).getD 0)⟩ := by
  have hstep : applyCalls [] chat (a :: rest) =
      applyCalls ((update_user_settings_stmts [] chat a).2) chat rest := rfl
  have hins : ((update_user_settings_stmts [] chat a).2).lookup chat =
      some (upsertRow none a) := update_stmts_lookup_self [] chat a
  rw [hstep, applyCalls_lookup_existing chat rest _ _ hins]
  simp only [upsertRow]
  rw [lastSupplied_cons, lastSupplied_cons, lastSupplied_cons, lastSupplied_cons,
    lastSupplied_cons]
  congr 1
  rw [pyOrS_of_ne a.coin_id "fpi-bank" hcoin,
    pyOrQ_of_ne a.threshold (1 / 10) hth,
    pyOrQ_getD_zero a.depozit, pyOrQ_getD_zero a.last_notified_price]
  rw [foldl_getD_eq (fun x => x.coin_id) rest a.coin_id "fpi-bank",
    foldl_mergeOpt_getD (fun x => x.threshold) rest a.threshold (1 / 10),
    foldl_mergeOpt_getD (fun x => x.depozit) rest a.depozit 0,
    foldl_mergeOpt_getD (fun x => x.last_notified_price) rest a.last_notified_price 0]

/-- C3 witness: a concrete two-call sequence — insert with
`coin_id="fpi-bank"`, `threshold=0.5`, then an update supplying only
`balance=3` — ends with the merged record predicted by the theorem. -/
theorem update_user_settings_upsert_semantics_witness :
    (applyCalls [] 1 [⟨some "fpi-bank", none, some (1 / 2), none, none⟩,
        ⟨none, some 3, none, none, none⟩]).lookup 1 =
      some ⟨"fpi-bank", some 3, some (1 / 2), some 0, some 0⟩ := by
  have h := update_user_settings_upsert_semantics 1
    ⟨some "fpi-bank", none, some (1 / 2), none, none⟩
    [⟨none, some 3, none, none, none⟩]
    (by
      intro hx
      have : (1 / 2 : ℚ) = 0 := by injection hx
      norm_num at this)
    (by intro hx; simp at hx)
  rw [h]
  rfl

theorem lookup_filterKey_self (c : Int) :
    ∀ l : List (Int × α), (l.filter fun e => e.1 ≠ c).lookup c = none := by
  intro l
  induction l with
  | nil => rfl
  | cons e rest ih =>
    obtain ⟨k, v⟩ := e
    by_cases hk : k = c
    · subst hk
      simp only [List.filter_cons]
      rw [if_neg (by simp)]
      exact ih
    · have hck : c ≠ k := fun hx => hk hx.symm
      simp only [List.filter_cons]
      rw [if_pos (by simp [hk])]
      rw [lookup_cons_ne c k v _ hck]
      exact ih

theorem lookup_filterKey_ne (c d : Int) (h : c ≠ d) :
    ∀ l : List (Int × α), (l.filter fun e => e.1 ≠ d).lookup c = l.lookup c := by
  intro l
  induction l with
  | nil => rfl
  | cons e rest ih =>
    obtain ⟨k, v⟩ := e
    by_cases hk : k = d
    · subst hk
      simp only [List.filter_cons]
      rw [if_neg (by simp)]
      rw [ih, lookup_cons_ne c k v rest h]
    · simp only [List.filter_cons]
      rw [if_pos (by simp [hk])]
      by_cases hck : c = k
      · subst hck
        rw [lookup_cons_self, lookup_cons_self]
      · rw [lookup_cons_ne c k v _ hck, lookup_cons_ne c k v rest hck]
        exact ih

theorem remove_user_lookup_self (st : Store) (c : Int) :
    ((remove_user false st c).2).lookup c = none :=
  lookup_filterKey_self c st

theorem remove_user_lookup_ne (st : Store) (c d : Int) (h : c ≠ d) :
    ((remove_user false st d).2).lookup c = st.lookup c :=
  lookup_filterKey_ne c d h st

/-- The tallies of a broadcast fold: one success per delivered recipient,
one failure per raising recipient, accumulated over the id list. -/
theorem bcastFold_counts (deliver : Int → Option SendExc) (ids : List Int) :
    ∀ (s f : Nat) (st : Store),
      (ids.foldl (bstep deliver) ((s, f), st)).1 =
        (s + ids.countP (fun c => (deliver c).isNone),
         f + ids.countP (fun c => (deliver c).isSome)) := by
  induction ids with
  | nil => intro s f st; simp
  | cons c ids ih =>
    intro s f st
    simp only [List.foldl_cons, List.countP_cons]
    cases hd : deliver c with
    | none =>
      simp only [bstep, hd]
      rw [ih (s + 1) f st]
      simp [hd]
      omega
    | some exc =>
      cases exc with
      | apiTelegramException code desc =>
        by_cases hb : isBlockedError code desc
        · simp only [bstep, hd, if_pos hb]
          rw [ih s (f + 1) _]
          simp [hd]
          omega
        · simp only [bstep, hd, if_neg hb]
          rw [ih s (f + 1) st]
          simp [hd]
          omega
      | requestException m =>
        simp only [bstep, hd]
        rw [ih s (f + 1) st]
        simp [hd]
        omega
      | otherException m =>
        simp only [bstep, hd]
        rw [ih s (f + 1) st]
        simp [hd]
        omega

theorem countP_isNone_add_isSome (deliver : Int → Option SendExc) :
    ∀ ids : List Int,
      ids.countP (fun c => (deliver c).isNone) +
        ids.countP (fun c => (deliver c).isSome) = ids.length := by
  intro ids
  induction ids with
  | nil => rfl
  | cons c ids ih =>
    simp only [List.countP_cons, List.length_cons]
    cases hd : deliver c <;> simp [hd] <;> omega

theorem bcastFold_lookup_none (deliver : Int → Option SendExc) (c : Int)
    (ids : List Int) :
    ∀ acc : (Nat × Nat) × Store, acc.2.lookup c = none →
      ((ids.foldl (bstep deliver) acc).2).lookup c = none := by
  induction ids with
  | nil => intro acc h; exact h
  | cons d ids ih =>
    intro acc h
    simp only [List.foldl_cons]
    refine ih _ ?_
    cases hd : deliver d with
    | none => simpa [bstep, hd] using h
    | some exc =>
      cases exc with
      | apiTelegramException code desc =>
        by_cases hb : isBlockedError code desc
        · simp only [bstep, hd, if_pos hb]
          by_cases hcd : c = d
          · subst hcd; exact remove_user_lookup_self acc.2 c
          · rw [remove_user_lookup_ne acc.2 c d hcd]; exact h
        · simpa [bstep, hd, hb] using h
      | requestException m => simpa [bstep, hd] using h
      | otherException m => simpa [bstep, hd] using h

theorem bcastFold_removes_blocked (deliver : Int → Option SendExc) (c : Int)
    (hb : isBlockedOutcome (deliver c) = true) :
    ∀ ids : List Int, c ∈ ids →
      ∀ acc : (Nat × Nat) × Store,
        ((ids.foldl (bstep deliver) acc).2).lookup c = none := by
  intro ids
  induction ids with
  | nil => intro h; exact absurd h (List.not_mem_nil c)
  | cons d ids ih =>
    intro hmem acc
    rcases List.mem_cons.mp hmem with hcd | htail
    · subst hcd
      simp only [List.foldl_cons]
      refine bcastFold_lookup_none deliver c ids _ ?_
      cases hd : deliver c with
      | none => rw [hd] at hb; exact absurd hb (by simp [isBlockedOutcome])
      | some exc =>
        cases exc with
        | apiTelegramException code desc =>
          rw [hd] at hb
          have hbe : isBlockedError code desc = true := hb
          simp only [bstep, hd, if_pos hbe]
          exact remove_user_lookup_self acc.2 c
        | requestException m =>
          rw [hd] at hb; exact absurd hb (by simp [isBlockedOutcome])
        | otherException m =>
          rw [hd] at hb; exact absurd hb (by simp [isBlockedOutcome])
    · exact ih htail _

/-- C7: for every executed broadcast, `success + failed` equals the number
of chat identifiers listed from `user_settings` at broadcast time (each
recipient tallied exactly once), and a failure to even list the recipients
yields `success = 0`, `failed = 0` with nothing sent; the call is a total
function — it never raises. -/
theorem broadcast_counts_exhaustive :
    ∀ (deliver : Int → Option SendExc) (st : Store) (text : String),
      (broadcast_message false deliver st text).1.1 +
        (broadcast_message false deliver st text).1.2 = st.length ∧
      broadcast_message true deliver st text = ((0, 0), st) := by
  intro deliver st text
  constructor
  · have h := bcastFold_counts deliver (st.map Prod.fst) 0 0 st
    have hsum := countP_isNone_add_isSome deliver (st.map Prod.fst)
    simp only [broadcast_message, if_neg Bool.false_ne_true]
    rw [show ((st.map Prod.fst).foldl (bstep deliver) ((0, 0), st)).1.1 =
        (((st.map Prod.fst).foldl (bstep deliver) ((0, 0), st)).1).1 from rfl,
      show ((st.map Prod.fst).foldl (bstep deliver) ((0, 0), st)).1.2 =
        (((st.map Prod.fst).foldl (bstep deliver) ((0, 0), st)).1).2 from rfl, h]
    simpa using hsum
  · rfl

/-- C2 counterexample: a broadcast delivery to chat `1` fails with the
blocked-bot error; immediately afterwards the chat is gone from the store
and counted as a failed delivery, but it is still present in the in-memory
settings map — `admin.broadcast_message` never touches bot.py's
`user_settings` — contradicting "absent from both". -/
theorem broadcast_blocked_leaves_memory_map :
    ((broadcast_step false (fun _ => some (.apiTelegramException 403 blockedDesc))
        ⟨[(1, ⟨"fpi-bank", some 1, 1, 0, none⟩)],
         [(1, ⟨"fpi-bank", none, some 1, some 0, some 0⟩)], [], []⟩
        "hello").2).store.lookup 1 = none ∧
    ((broadcast_step false (fun _ => some (.apiTelegramException 403 blockedDesc))
        ⟨[(1, ⟨"fpi-bank", some 1, 1, 0, none⟩)],
         [(1, ⟨"fpi-bank", none, some 1, some 0, some 0⟩)], [], []⟩
        "hello").2).mem.lookup 1 = some ⟨"fpi-bank", some 1, 1, 0, none⟩ ∧
    (broadcast_step false (fun _ => some (.apiTelegramException 403 blockedDesc))
        ⟨[(1, ⟨"fpi-bank", some 1, 1, 0, none⟩)],
         [(1, ⟨"fpi-bank", none, some 1, some 0, some 0⟩)], [], []⟩
        "hello").1 = (0, 1) := by
  refine ⟨by decide, by decide, by decide⟩

/-- C2 (amended): a blocked-bot delivery failure during a polling-loop
notification or a direct reply (both go through `bot.send_message`) removes
the chat from both the in-memory map and the store; during a broadcast it
removes the chat from the store and counts it as a failed delivery, but the
in-memory map is not touched by the broadcast path. -/
theorem blocked_delivery_unsubscribes
    (chat : Int) (exc : Option SendExc) (msg : String) (st : BotState)
    (hb : isBlockedOutcome exc = true) :
    ((send_message exc chat msg st).mem.lookup chat = none ∧
     (send_message exc chat msg st).store.lookup chat = none) ∧
    (∀ (deliver : Int → Option SendExc) (store : Store) (text : String)
       (c : Int), c ∈ store.map Prod.fst → isBlockedOutcome (deliver c) = true →
      ((broadcast_message false deliver store text).2).lookup c = none ∧
      (broadcast_message false deliver store text).1.2 =
        (store.map Prod.fst).countP (fun x => (deliver x).isSome)) ∧
    (∀ (listFails : Bool) (deliver : Int → Option SendExc) (text : String),
      (broadcast_step listFails deliver st text).2.mem = st.mem) := by
  refine ⟨?_, ?_, ?_⟩
  · cases exc with
    | none => exact absurd hb (by simp [isBlockedOutcome])
    | some e =>
      cases e with
      | apiTelegramException code desc =>
        have hbe : isBlockedError code desc = true := hb
        constructor
        · simp only [send_message, if_pos hbe]
          exact lookup_filterKey_self chat st.mem
        · simp only [send_message, if_pos hbe]
          exact remove_user_lookup_self st.store chat
      | requestException m => exact absurd hb (by simp [isBlockedOutcome])
      | otherException m => exact absurd hb (by simp [isBlockedOutcome])
  · intro deliver store text c hmem hbc
    constructor
    · simp only [broadcast_message, if_neg Bool.false_ne_true]
      exact bcastFold_removes_blocked deliver c hbc (store.map Prod.fst) hmem _
    · simp only [broadcast_message, if_neg Bool.false_ne_true]
      have h := bcastFold_counts deliver (store.map Prod.fst) 0 0 store
      rw [show ((store.map Prod.fst).foldl (bstep deliver) ((0, 0), store)).1.2 =
          (((store.map Prod.fst).foldl (bstep deliver) ((0, 0), store)).1).2 from rfl,
        h]
      simp
  · intro listFails deliver text
    rfl

/-- C2 witness: a concrete blocked send through the choke point leaves
chat `1` in neither the map nor the store, and the concrete broadcast of the
same state deletes the stored row and counts one failure. -/
theorem blocked_delivery_unsubscribes_witness :
    ((send_message (some (.apiTelegramException 403 blockedDesc)) 1 "hi"
        ⟨[(1, ⟨"fpi-bank", some 1, 1, 0, none⟩)],
         [(1, ⟨"fpi-bank", none, some 1, some 0, some 0⟩)], [], []⟩).mem.lookup 1 =
      none ∧
     (send_message (some (.apiTelegramException 403 blockedDesc)) 1 "hi"
        ⟨[(1, ⟨"fpi-bank", some 1, 1, 0, none⟩)],
         [(1, ⟨"fpi-bank", none, some 1, some 0, some 0⟩)], [], []⟩).store.lookup 1 =
      none) ∧
    ((broadcast_message false (fun _ => some (.apiTelegramException 403 blockedDesc))
        [(1, ⟨"fpi-bank", none, some 1, some 0, some 0⟩)] "hi").2).lookup 1 = none ∧
    (broadcast_message false (fun _ => some (.apiTelegramException 403 blockedDesc))
        [(1, ⟨"fpi-bank", none, some 1, some 0, some 0⟩)] "hi").1.2 = 1 := by
  have h := blocked_delivery_unsubscribes 1
    (some (.apiTelegramException 403 blockedDesc)) "hi"
    ⟨[(1, ⟨"fpi-bank", some 1, 1, 0, none⟩)],
     [(1, ⟨"fpi-bank", none, some 1, some 0, some 0⟩)], [], []⟩ (by decide)
  refine ⟨h.1, ?_, ?_⟩
  · exact (h.2.1 (fun _ => some (.apiTelegramException 403 blockedDesc))
      [(1, ⟨"fpi-bank", none, some 1, some 0, some 0⟩)] "hi" 1 (by decide)
      (by decide)).1
  · have h2 := (h.2.1 (fun _ => some (.apiTelegramException 403 blockedDesc))
      [(1, ⟨"fpi-bank", none, some 1, some 0, some 0⟩)] "hi" 1 (by decide)
      (by decide)).2
    rw [h2]
    decide

theorem latestFold_mem (l : List PriceRow) :
    ∀ (acc : Option PriceRow) (b : PriceRow),
      l.foldl (fun acc r =>
        match acc with
        | none => some r
        | some x => if x.timestamp < r.timestamp then some r else acc) acc =
          some b →
      b ∈ l ∨ acc = some b := by
  induction l with
  | nil => intro acc b h; exact Or.inr h
  | cons r l ih =>
    intro acc b h
    rcases ih _ b h with hmem | hstep
    · exact Or.inl (List.mem_cons_of_mem r hmem)
    · cases acc with
      | none =>
        simp only at hstep
        have hb : b = r := (Option.some.inj hstep).symm
        rw [hb]
        exact Or.inl (List.mem_cons_self r l)
      | some x =>
        simp only at hstep
        by_cases hlt : x.timestamp < r.timestamp
        · rw [if_pos hlt] at hstep
          have hb : b = r := (Option.some.inj hstep).symm
          rw [hb]
          exact Or.inl (List.mem_cons_self r l)
        · rw [if_neg hlt] at hstep
          exact Or.inr hstep

theorem latestRow_mem (l : List PriceRow) (b : PriceRow)
    (h : latestRow l = some b) : b ∈ l := by
  rcases latestFold_mem l none b h with hmem | habs
  · exact hmem
  · simp at habs

theorem latestRow_append_last (l : List PriceRow) (r : PriceRow)
    (h : ∀ x ∈ l, x.timestamp < r.timestamp) :
    latestRow (l ++ [r]) = some r := by
  simp only [latestRow, List.foldl_append, List.foldl_cons, List.foldl_nil]
  cases hacc : l.foldl (fun acc r =>
      match acc with
      | none => some r
      | some x => if x.timestamp < r.timestamp then some r else acc) none with
  | none => rfl
  | some b =>
    have hb : b ∈ l := latestRow_mem l b hacc
    simp only
    rw [if_pos (h b hb)]

theorem gocc_preserves (st : OrmState) (coin : String)
    (n c : Option String) :
    (get_or_create_cryptocurrency st coin n c).priceRows = st.priceRows ∧
    (get_or_create_cryptocurrency st coin n c).clock = st.clock := by
  simp only [get_or_create_cryptocurrency]
  split <;> exact ⟨rfl, rfl⟩

/-- C10: the ORM store's `update_coin_price` is append-only — two calls for
the same asset leave the original history intact and add two retrievable
rows carrying the two prices — `get_coin_price` then returns the price of
the most recently created row, and returns absent for an asset with no
observations. -/
theorem orm_update_coin_price_append_only
    (st : OrmState) (coin : String) (p1 p2 : ℚ) (hwf : clockWF st) :
    (orm_update_coin_price (orm_update_coin_price st coin p1) coin p2).priceRows =
      st.priceRows ++ [⟨st.clock, coin, p1, st.clock⟩,
        ⟨st.clock + 1, coin, p2, st.clock + 1⟩] ∧
    orm_get_coin_price
      (orm_update_coin_price (orm_update_coin_price st coin p1) coin p2) coin =
      some p2 ∧
    (∀ c : String, st.priceRows.filter (fun r => r.coinId == c) = [] →
      orm_get_coin_price st c = none) := by
  obtain ⟨hrows1, hclock1⟩ := gocc_preserves st coin none none
  set st1 := orm_update_coin_price st coin p1 with hst1
  obtain ⟨hrows2, hclock2⟩ := gocc_preserves st1 coin none none
  have h1rows : st1.priceRows = st.priceRows ++ [⟨st.clock, coin, p1, st.clock⟩] := by
    rw [hst1]; simp only [orm_update_coin_price, hrows1, hclock1]
  have h1clock : st1.clock = st.clock + 1 := by
    rw [hst1]; simp only [orm_update_coin_price, hclock1]
  have hmain : (orm_update_coin_price st1 coin p2).priceRows =
      st.priceRows ++ [⟨st.clock, coin, p1, st.clock⟩,
        ⟨st.clock + 1, coin, p2, st.clock + 1⟩] := by
    simp only [orm_update_coin_price, hrows2, hclock2, h1rows, h1clock,
      List.append_assoc]
    rfl
  refine ⟨hmain, ?_, ?_⟩
  · simp only [orm_get_coin_price, hmain]
    have hfil : (st.priceRows ++ [PriceRow.mk st.clock coin p1 st.clock,
        PriceRow.mk (st.clock + 1) coin p2 (st.clock + 1)]).filter
          (fun r => r.coinId == coin) =
        (st.priceRows.filter (fun r => r.coinId == coin) ++
          [PriceRow.mk st.clock coin p1 st.clock]) ++
          [PriceRow.mk (st.clock + 1) coin p2 (st.clock + 1)] := by
      simp [List.filter_append, List.filter_cons]
    rw [hfil, latestRow_append_last _ _ ?_]
    intro x hx
    rcases List.mem_append.mp hx with hx1 | hx2
    · have hx0 : x ∈ st.priceRows := List.mem_of_mem_filter hx1
      have := hwf x hx0
      simp only
      omega
    · have hx : x = PriceRow.mk st.clock coin p1 st.clock := by simpa using hx2
      rw [hx]
      simp only
      omega
  · intro c hc
    simp [orm_get_coin_price, hc, latestRow]

/-- C10 witness: starting from the empty ORM store (where the clock
invariant holds vacuously), recording `1` then `2` for `fpi-bank` yields a
two-row history and the read returns the later price. -/
theorem orm_update_coin_price_append_only_witness :
    orm_get_coin_price
      (orm_update_coin_price (orm_update_coin_price ⟨[], [], 0⟩ "fpi-bank" 1)
        "fpi-bank" 2) "fpi-bank" = some 2 ∧
    (orm_update_coin_price (orm_update_coin_price ⟨[], [], 0⟩ "fpi-bank" 1)
        "fpi-bank" 2).priceRows =
      [⟨0, "fpi-bank", 1, 0⟩, ⟨1, "fpi-bank", 2, 1⟩] := by
  have h := orm_update_coin_price_append_only ⟨[], [], 0⟩ "fpi-bank" 1 2
    (fun r hr => absurd hr (List.not_mem_nil r))
  exact ⟨h.2.1, h.1⟩

theorem lookup_none_of_no_key (c : Int) :
    ∀ l : List (Int × α), c ∉ l.map Prod.fst → l.lookup c = none := by
  intro l
  induction l with
  | nil => intro h; rfl
  | cons e rest ih =>
    intro h
    obtain ⟨k, v⟩ := e
    have hk : c ≠ k := by
      intro hx
      exact h (by rw [hx]; exact List.mem_cons_self k _)
    rw [lookup_cons_ne c k v rest hk]
    exact ih fun hx => h (List.mem_cons_of_mem k hx)

theorem lookup_append_left_none (c : Int) (l1 l2 : List (Int × α))
    (h : l1.lookup c = none) : (l1 ++ l2).lookup c = l2.lookup c := by
  induction l1 with
  | nil => rfl
  | cons e rest ih =>
    obtain ⟨k, v⟩ := e
    by_cases hk : c = k
    · subst hk
      rw [lookup_cons_self] at h
      exact absurd h (by simp)
    · rw [List.cons_append, lookup_cons_ne c k v (rest ++ l2) hk]
      rw [lookup_cons_ne c k v rest hk] at h
      exact ih h

theorem lookup_setLast_ne (c d : Int) (p : ℚ) (h : c ≠ d) :
    ∀ m : Mem, (setLast m d p).lookup c = m.lookup c := by
  intro m
  induction m with
  | nil => rfl
  | cons e rest ih =>
    obtain ⟨k, v⟩ := e
    simp only [setLast, List.map_cons]
    split_ifs with hk
    · subst hk
      rw [lookup_cons_ne c k _ _ h, lookup_cons_ne c k v rest h]
      exact ih
    · by_cases hck : c = k
      · subst hck
        rw [lookup_cons_self, lookup_cons_self]
      · rw [lookup_cons_ne c k v _ hck, lookup_cons_ne c k v rest hck]
        exact ih

theorem lookup_setLast_self (c : Int) (p : ℚ) :
    ∀ m : Mem, (setLast m c p).lookup c =
      (m.lookup c).map fun s => { s with last_notified_price := some p } := by
  intro m
  induction m with
  | nil => rfl
  | cons e rest ih =>
    obtain ⟨k, v⟩ := e
    simp only [setLast, List.map_cons]
    split_ifs with hk
    · subst hk
      rw [lookup_cons_self, lookup_cons_self]
      rfl
    · have hck : c ≠ k := fun hx => hk hx.symm
      rw [lookup_cons_ne c k v _ hck, lookup_cons_ne c k v rest hck]
      exact ih

theorem eraseChat_lookup_self (m : Mem) (c : Int) :
    (eraseChat m c).lookup c = none :=
  lookup_filterKey_self c m

theorem eraseChat_lookup_ne (m : Mem) (c d : Int) (h : c ≠ d) :
    (eraseChat m d).lookup c = m.lookup c :=
  lookup_filterKey_ne c d h m

theorem send_message_sent_eq (exc : Option SendExc) (chat : Int) (msg : String)
    (st : BotState) :
    (send_message exc chat msg st).sent = st.sent ++ [(chat, msg)] := by
  cases exc with
  | none => rfl
  | some e =>
    cases e with
    | apiTelegramException code desc =>
      simp only [send_message]
      split_ifs <;> rfl
    | requestException m => rfl
    | otherException m => rfl

theorem send_message_mem_ne (exc : Option SendExc) (chat : Int) (msg : String)
    (st : BotState) (c : Int) (h : c ≠ chat) :
    (send_message exc chat msg st).mem.lookup c = st.mem.lookup c := by
  cases exc with
  | none => rfl
  | some e =>
    cases e with
    | apiTelegramException code desc =>
      simp only [send_message]
      split_ifs with hb
      · exact eraseChat_lookup_ne st.mem c chat h
      · rfl
    | requestException m => rfl
    | otherException m => rfl

theorem send_message_store_ne (exc : Option SendExc) (chat : Int) (msg : String)
    (st : BotState) (c : Int) (h : c ≠ chat) :
    (send_message exc chat msg st).store.lookup c = st.store.lookup c := by
  cases exc with
  | none => rfl
  | some e =>
    cases e with
    | apiTelegramException code desc =>
      simp only [send_message]
      split_ifs with hb
      · exact remove_user_lookup_ne st.store c chat h
      · rfl
    | requestException m => rfl
    | otherException m => rfl

theorem send_message_self_not_blocked (exc : Option SendExc) (chat : Int)
    (msg : String) (st : BotState) (h : isBlockedOutcome exc = false) :
    (send_message exc chat msg st).mem = st.mem ∧
    (send_message exc chat msg st).store = st.store := by
  cases exc with
  | none => exact ⟨rfl, rfl⟩
  | some e =>
    cases e with
    | apiTelegramException code desc =>
      have hb : isBlockedError code desc = false := h
      simp only [send_message, hb]
      exact ⟨rfl, rfl⟩
    | requestException m => exact ⟨rfl, rfl⟩
    | otherException m => exact ⟨rfl, rfl⟩

theorem send_message_self_blocked (exc : Option SendExc) (chat : Int)
    (msg : String) (st : BotState) (h : isBlockedOutcome exc = true) :
    (send_message exc chat msg st).mem = eraseChat st.mem chat ∧
    (send_message exc chat msg st).store.lookup chat = none := by
  cases exc with
  | none => exact absurd h (by simp [isBlockedOutcome])
  | some e =>
    cases e with
    | apiTelegramException code desc =>
      have hb : isBlockedError code desc = true := h
      simp only [send_message]
      rw [if_pos hb]
      exact ⟨rfl, remove_user_lookup_self st.store chat⟩
    | requestException m => exact absurd h (by simp [isBlockedOutcome])
    | otherException m => exact absurd h (by simp [isBlockedOutcome])

theorem update_user_settings_false_eq (st : Store) (chat : Int) (a : Args) :
    update_user_settings false st chat a = update_user_settings_stmts st chat a :=
  rfl

theorem process_user_ne (prices : List (String × Option ℚ))
    (deliver : Int → Option SendExc) (st : BotState) (d : Int) (sd : Settings)
    (c : Int) (h : c ≠ d) :
    (process_user prices deliver st (d, sd)).mem.lookup c = st.mem.lookup c ∧
    (process_user prices deliver st (d, sd)).store.lookup c = st.store.lookup c ∧
    sentCount (process_user prices deliver st (d, sd)) c = sentCount st c := by
  have hdc : ((d : Int) == c) = false := beq_eq_false_iff_ne.mpr fun hx => h hx.symm
  by_cases hcoin : sd.coin_id = ""
  · simp [process_user, hcoin]
  · cases hpl : prices.lookup sd.coin_id with
    | none => simp [process_user, hcoin, hpl]
    | some op =>
      cases op with
      | none => simp [process_user, hcoin, hpl]
      | some p =>
        cases hbal : sd.balance with
        | none =>
          simp only [process_user, if_neg hcoin, hpl, hbal]
          refine ⟨lookup_setLast_ne c d p h st.mem, ?_, rfl⟩
          rw [update_user_settings_false_eq]
          exact update_stmts_lookup_ne st.store c d (lastArg p) h
        | some b =>
          cases hlast : sd.last_notified_price with
          | none =>
            simp only [process_user, if_neg hcoin, hpl, hbal, hlast]
            refine ⟨lookup_setLast_ne c d p h st.mem, ?_, rfl⟩
            rw [update_user_settings_false_eq]
            exact update_stmts_lookup_ne st.store c d (lastArg p) h
          | some l =>
            simp only [process_user, if_neg hcoin, hpl, hbal, hlast]
            split_ifs with ht hg
            · refine ⟨?_, ?_, ?_⟩
              · rw [lookup_setLast_ne c d p h]
                exact send_message_mem_ne _ d _ st c h
              · rw [update_user_settings_false_eq,
                  update_stmts_lookup_ne _ c d (lastArg p) h]
                exact send_message_store_ne _ d _ st c h
              · simp [sentCount, send_message_sent_eq, List.countP_append,
                  List.countP_cons, hdc]
            · refine ⟨send_message_mem_ne _ d _ st c h,
                send_message_store_ne _ d _ st c h, ?_⟩
              simp [sentCount, send_message_sent_eq, List.countP_append,
                List.countP_cons, hdc]
            · exact ⟨rfl, rfl, rfl⟩

theorem foldl_process_ne (prices : List (String × Option ℚ))
    (deliver : Int → Option SendExc) (c : Int) :
    ∀ (l : List (Int × Settings)), (∀ e ∈ l, e.1 ≠ c) →
      ∀ st : BotState,
        ((l.foldl (process_user prices deliver) st).mem.lookup c =
          st.mem.lookup c) ∧
        ((l.foldl (process_user prices deliver) st).store.lookup c =
          st.store.lookup c) ∧
        sentCount (l.foldl (process_user prices deliver) st) c =
          sentCount st c := by
  intro l
  induction l with
  | nil => intro hl st; exact ⟨rfl, rfl, rfl⟩
  | cons e rest ih =>
    intro hl st
    obtain ⟨d, sd⟩ := e
    have hd : d ≠ c := hl (d, sd) (List.mem_cons_self _ _)
    have hcd : c ≠ d := fun hx => hd hx.symm
    have hstep := process_user_ne prices deliver st d sd c hcd
    have hrest := ih (fun x hx => hl x (List.mem_cons_of_mem _ hx))
      (process_user prices deliver st (d, sd))
    simp only [List.foldl_cons]
    exact ⟨hrest.1.trans hstep.1, hrest.2.1.trans hstep.2.1,
      hrest.2.2.trans hstep.2.2⟩

theorem upsertRow_lastArg (x : Option Row) (p : ℚ) :
    (upsertRow x (lastArg p)).last_notified_price = some p := by
  cases x with
  | some row => rfl
  | none => simp [upsertRow, lastArg, pyOrQ_getD_zero]

/-- The behaviour of one `price_checker` iteration at the processed user
itself, for a user whose coin price was fetched: the baseline-setting case,
the at-or-above-threshold case (split on whether the notification delivery
fails with a blocked-bot error), and the below-threshold case. -/
theorem process_user_self (prices : List (String × Option ℚ))
    (deliver : Int → Option SendExc) (st : BotState) (chat : Int)
    (s : Settings) (p : ℚ)
    (hlook : st.mem.lookup chat = some s)
    (hcoin : s.coin_id ≠ "")
    (hp : prices.lookup s.coin_id = some (some p)) :
    ((s.balance = none ∨ s.last_notified_price = none) →
      (process_user prices deliver st (chat, s)).mem.lookup chat =
        some { s with last_notified_price := some p } ∧
      (∃ r, (process_user prices deliver st (chat, s)).store.lookup chat =
        some r ∧ r.last_notified_price = some p) ∧
      sentCount (process_user prices deliver st (chat, s)) chat =
        sentCount st chat) ∧
    (∀ b l : ℚ, s.balance = some b → s.last_notified_price = some l →
      s.threshold ≤ |p - l| →
      (isBlockedOutcome (deliver chat) = false →
        (process_user prices deliver st (chat, s)).mem.lookup chat =
          some { s with last_notified_price := some p } ∧
        (∃ r, (process_user prices deliver st (chat, s)).store.lookup chat =
          some r ∧ r.last_notified_price = some p) ∧
        sentCount (process_user prices deliver st (chat, s)) chat =
          sentCount st chat + 1) ∧
      (isBlockedOutcome (deliver chat) = true →
        (process_user prices deliver st (chat, s)).mem.lookup chat = none ∧
        (process_user prices deliver st (chat, s)).store.lookup chat = none ∧
        sentCount (process_user prices deliver st (chat, s)) chat =
          sentCount st chat + 1)) ∧
    (∀ b l : ℚ, s.balance = some b → s.last_notified_price = some l →
      |p - l| < s.threshold →
      (process_user prices deliver st (chat, s)).mem.lookup chat = some s ∧
      (process_user prices deliver st (chat, s)).store.lookup chat =
        st.store.lookup chat ∧
      sentCount (process_user prices deliver st (chat, s)) chat =
        sentCount st chat) := by
  refine ⟨?_, ?_, ?_⟩
  · intro hnb
    have hred : process_user prices deliver st (chat, s) =
        { st with mem := setLast st.mem chat p,
                  store := (update_user_settings false st.store chat
                    (lastArg p)).2 } := by
      rcases hnb with hbal | hlast
      · simp only [process_user, if_neg hcoin, hp, hbal]
      · cases hbal : s.balance with
        | none => simp only [process_user, if_neg hcoin, hp, hbal]
        | some b => simp only [process_user, if_neg hcoin, hp, hbal, hlast]
    rw [hred]
    refine ⟨?_, ?_, rfl⟩
    · rw [lookup_setLast_self chat p st.mem, hlook]
      rfl
    · rw [update_user_settings_false_eq, update_stmts_lookup_self]
      exact ⟨upsertRow (st.store.lookup chat) (lastArg p), rfl,
        upsertRow_lastArg _ p⟩
  · intro b l hbal hlast ht
    have hred : process_user prices deliver st (chat, s) =
        (let st1 := send_message (deliver chat) chat
          (notification_text s.coin_id p (b * p * (97 / 100)) s.depozit) st
        if (st1.mem.lookup chat).isSome then
          { st1 with mem := setLast st1.mem chat p,
                     store := (update_user_settings false st1.store chat
                       (lastArg p)).2 }
        else st1) := by
      simp only [process_user, if_neg hcoin, hp, hbal, hlast, if_pos ht]
    constructor
    · intro hnblock
      obtain ⟨hm1, hs1⟩ := send_message_self_not_blocked (deliver chat) chat
        (notification_text s.coin_id p (b * p * (97 / 100)) s.depozit) st hnblock
      have hg : ((send_message (deliver chat) chat
          (notification_text s.coin_id p (b * p * (97 / 100)) s.depozit)
            st).mem.lookup chat).isSome = true := by
        rw [hm1, hlook]; rfl
      rw [hred]
      simp only [if_pos hg]
      refine ⟨?_, ?_, ?_⟩
      · rw [lookup_setLast_self chat p, hm1, hlook]
        rfl
      · rw [update_user_settings_false_eq, update_stmts_lookup_self]
        exact ⟨_, rfl, upsertRow_lastArg _ p⟩
      · simp [sentCount, send_message_sent_eq, List.countP_append,
          List.countP_cons]
    · intro hblock
      obtain ⟨hmE, hsN⟩ := send_message_self_blocked (deliver chat) chat
        (notification_text s.coin_id p (b * p * (97 / 100)) s.depozit) st hblock
      have hg : ((send_message (deliver chat) chat
          (notification_text s.coin_id p (b * p * (97 / 100)) s.depozit)
            st).mem.lookup chat).isSome = false := by
        rw [hmE, eraseChat_lookup_self]; rfl
      rw [hred]
      simp only [hg, Bool.false_eq_true, if_false]
      refine ⟨?_, hsN, ?_⟩
      · rw [hmE]; exact eraseChat_lookup_self st.mem chat
      · simp [sentCount, send_message_sent_eq, List.countP_append,
          List.countP_cons]
  · intro b l hbal hlast hlt
    have hred : process_user prices deliver st (chat, s) = st := by
      simp only [process_user, if_neg hcoin, hp, hbal, hlast,
        if_neg (not_le.mpr hlt)]
    rw [hred]
    exact ⟨hlook, rfl, rfl⟩

/-- C4 counterexample: a user with balance and baseline set and a fetched
price crossing the threshold, whose notification delivery fails with the
blocked-bot error: the claim promises `last_notified_price` is updated in
memory and in the store, but the user is instead removed from both (the
choke point unsubscribes mid-cycle), so nothing is updated. -/
theorem price_checker_blocked_notification_corner :
    (price_checker_cycle [("fpi-bank", some 5)]
      (fun _ => some (.apiTelegramException 403 blockedDesc))
      ⟨[(1, ⟨"fpi-bank", some 2, 1, 0, some 4⟩)], [], [], []⟩).mem.lookup 1 =
        none ∧
    (price_checker_cycle [("fpi-bank", some 5)]
      (fun _ => some (.apiTelegramException 403 blockedDesc))
      ⟨[(1, ⟨"fpi-bank", some 2, 1, 0, some 4⟩)], [], [], []⟩).store.lookup 1 =
        none ∧
    sentCount (price_checker_cycle [("fpi-bank", some 5)]
      (fun _ => some (.apiTelegramException 403 blockedDesc))
      ⟨[(1, ⟨"fpi-bank", some 2, 1, 0, some 4⟩)], [], [], []⟩) 1 = 1 := by
  have ht : ((⟨"fpi-bank", some 2, 1, 0, some 4⟩ : Settings)).threshold ≤
      |(5 : ℚ) - 4| := by
    rw [show (5 : ℚ) - 4 = 1 from by norm_num, abs_one]
  have hself := process_user_self [("fpi-bank", some 5)]
    (fun _ => some (.apiTelegramException 403 blockedDesc))
    ⟨[(1, ⟨"fpi-bank", some 2, 1, 0, some 4⟩)], [], [], []⟩ 1
    ⟨"fpi-bank", some 2, 1, 0, some 4⟩ 5 rfl (by decide) rfl
  obtain ⟨hm, hs, hc⟩ := (hself.2.1 2 4 rfl rfl ht).2 (by decide)
  exact ⟨hm, hs, hc⟩

/-- C4 (amended): in one price-checker cycle, for a user of the snapshot
whose tracked coin's price `p` was fetched: with `balance` or
`last_notified_price` absent, no notification is attempted and the baseline
becomes `p` in memory and in the store; with both present and
`|p − last| ≥ threshold`, exactly one notification send is attempted, and —
unless the delivery fails with a blocked-bot error — `last_notified_price`
becomes `p` in memory and in the store, while on a blocked-bot failure the
user is instead removed from both; with `|p − last| < threshold` nothing is
sent and memory and store rows are left unchanged. -/
theorem price_checker_cycle_per_user
    (prices : List (String × Option ℚ)) (deliver : Int → Option SendExc)
    (st : BotState) (chat : Int) (s : Settings) (p : ℚ)
    (hnd : (st.mem.map Prod.fst).Nodup)
    (hmem : (chat, s) ∈ st.mem)
    (hcoin : s.coin_id ≠ "")
    (hp : prices.lookup s.coin_id = some (some p)) :
    ((s.balance = none ∨ s.last_notified_price = none) →
      (price_checker_cycle prices deliver st).mem.lookup chat =
        some { s with last_notified_price := some p } ∧
      (∃ r, (price_checker_cycle prices deliver st).store.lookup chat =
        some r ∧ r.last_notified_price = some p) ∧
      sentCount (price_checker_cycle prices deliver st) chat =
        sentCount st chat) ∧
    (∀ b l : ℚ, s.balance = some b → s.last_notified_price = some l →
      s.threshold ≤ |p - l| →
      (isBlockedOutcome (deliver chat) = false →
        (price_checker_cycle prices deliver st).mem.lookup chat =
          some { s with last_notified_price := some p } ∧
        (∃ r, (price_checker_cycle prices deliver st).store.lookup chat =
          some r ∧ r.last_notified_price = some p) ∧
        sentCount (price_checker_cycle prices deliver st) chat =
          sentCount st chat + 1) ∧
      (isBlockedOutcome (deliver chat) = true →
        (price_checker_cycle prices deliver st).mem.lookup chat = none ∧
        (price_checker_cycle prices deliver st).store.lookup chat = none ∧
        sentCount (price_checker_cycle prices deliver st) chat =
          sentCount st chat + 1)) ∧
    (∀ b l : ℚ, s.balance = some b → s.last_notified_price = some l →
      |p - l| < s.threshold →
      (price_checker_cycle prices deliver st).mem.lookup chat = some s ∧
      (price_checker_cycle prices deliver st).store.lookup chat =
        st.store.lookup chat ∧
      sentCount (price_checker_cycle prices deliver st) chat =
        sentCount st chat) := by
  have hne : st.mem.isEmpty = false := by
    cases hmm : st.mem with
    | nil => rw [hmm] at hmem; exact absurd hmem (List.not_mem_nil _)
    | cons a l => rfl
  obtain ⟨pre, post, hsplit⟩ := List.append_of_mem hmem
  have hnd2 : (pre.map Prod.fst ++ chat :: post.map Prod.fst).Nodup := by
    rw [hsplit] at hnd
    simpa using hnd
  have hdisj := (List.nodup_append.mp hnd2).2.2
  have hpre_chat : chat ∉ pre.map Prod.fst :=
    fun hc => hdisj hc (List.mem_cons_self _ _)
  have hpost_chat : chat ∉ post.map Prod.fst :=
    (List.nodup_cons.mp (List.nodup_append.mp hnd2).2.1).1
  have hpre_ne : ∀ e ∈ pre, e.1 ≠ chat :=
    fun e he hx => hpre_chat (hx ▸ List.mem_map_of_mem Prod.fst he)
  have hpost_ne : ∀ e ∈ post, e.1 ≠ chat :=
    fun e he hx => hpost_chat (hx ▸ List.mem_map_of_mem Prod.fst he)
  have hlook0 : st.mem.lookup chat = some s := by
    rw [hsplit, lookup_append_left_none chat pre _
      (lookup_none_of_no_key chat pre hpre_chat)]
    exact lookup_cons_self chat s post
  have hPre := foldl_process_ne prices deliver chat pre hpre_ne st
  have hlookPre :
      (pre.foldl (process_user prices deliver) st).mem.lookup chat = some s :=
    hPre.1.trans hlook0
  have hself := process_user_self prices deliver
    (pre.foldl (process_user prices deliver) st) chat s p hlookPre hcoin hp
  have hPost := foldl_process_ne prices deliver chat post hpost_ne
    (process_user prices deliver (pre.foldl (process_user prices deliver) st)
      (chat, s))
  have hF : st.mem.foldl (process_user prices deliver) st =
      post.foldl (process_user prices deliver)
        (process_user prices deliver
          (pre.foldl (process_user prices deliver) st) (chat, s)) := by
    conv_lhs => rw [hsplit]
    rw [List.foldl_append, List.foldl_cons]
  have hfin_mem : (price_checker_cycle prices deliver st).mem =
      (post.foldl (process_user prices deliver)
        (process_user prices deliver
          (pre.foldl (process_user prices deliver) st) (chat, s))).mem := by
    show (price_checker_cycle prices deliver st).mem = _
    simp only [price_checker_cycle, hne, Bool.false_eq_true, if_false]
    rw [← hF]
  have hfin_store : (price_checker_cycle prices deliver st).store =
      (post.foldl (process_user prices deliver)
        (process_user prices deliver
          (pre.foldl (process_user prices deliver) st) (chat, s))).store := by
    simp only [price_checker_cycle, hne, Bool.false_eq_true, if_false]
    rw [← hF]
  have hfin_sent : (price_checker_cycle prices deliver st).sent =
      (post.foldl (process_user prices deliver)
        (process_user prices deliver
          (pre.foldl (process_user prices deliver) st) (chat, s))).sent := by
    simp only [price_checker_cycle, hne, Bool.false_eq_true, if_false]
    rw [← hF]
  have hsent_chain : sentCount (price_checker_cycle prices deliver st) chat =
      sentCount (process_user prices deliver
        (pre.foldl (process_user prices deliver) st) (chat, s)) chat := by
    simp only [sentCount, hfin_sent]
    exact hPost.2.2
  have hmem_chain : (price_checker_cycle prices deliver st).mem.lookup chat =
      (process_user prices deliver
        (pre.foldl (process_user prices deliver) st) (chat, s)).mem.lookup chat := by
    rw [hfin_mem]
    exact hPost.1
  have hstore_chain : (price_checker_cycle prices deliver st).store.lookup chat =
      (process_user prices deliver
        (pre.foldl (process_user prices deliver) st) (chat, s)).store.lookup chat := by
    rw [hfin_store]
    exact hPost.2.1
  refine ⟨?_, ?_, ?_⟩
  · intro hnb
    obtain ⟨hm, hs, hc⟩ := hself.1 hnb
    exact ⟨hmem_chain.trans hm, by rw [hstore_chain]; exact hs,
      by rw [hsent_chain, hc]; exact hPre.2.2⟩
  · intro b l hbal hlast ht
    constructor
    · intro hnblock
      obtain ⟨hm, hs, hc⟩ := (hself.2.1 b l hbal hlast ht).1 hnblock
      refine ⟨hmem_chain.trans hm, by rw [hstore_chain]; exact hs, ?_⟩
      rw [hsent_chain, hc, hPre.2.2]
    · intro hblock
      obtain ⟨hm, hs, hc⟩ := (hself.2.1 b l hbal hlast ht).2 hblock
      refine ⟨hmem_chain.trans hm, hstore_chain.trans hs, ?_⟩
      rw [hsent_chain, hc, hPre.2.2]
  · intro b l hbal hlast hlt
    obtain ⟨hm, hs, hc⟩ := hself.2.2 b l hbal hlast hlt
    refine ⟨hmem_chain.trans hm, ?_, by rw [hsent_chain, hc]; exact hPre.2.2⟩
    rw [hstore_chain, hs]
    exact hPre.2.1

/-- C4 witness: a single subscribed user with balance `2`, threshold `0.1`
and baseline `4`; the fetched price `5` crosses the threshold, delivery
succeeds, and the cycle sends exactly one notification and moves the
baseline to `5` in memory and in the store. -/
theorem price_checker_cycle_per_user_witness :
    (price_checker_cycle [("fpi-bank", some 5)] (fun _ => none)
      ⟨[(1, ⟨"fpi-bank", some 2, 1, 0, some 4⟩)], [], [], []⟩).mem.lookup 1 =
      some ⟨"fpi-bank", some 2, 1, 0, some 5⟩ ∧
    (∃ r, (price_checker_cycle [("fpi-bank", some 5)] (fun _ => none)
      ⟨[(1, ⟨"fpi-bank", some 2, 1, 0, some 4⟩)], [], [], []⟩).store.lookup 1 =
      some r ∧ r.last_notified_price = some 5) ∧
    sentCount (price_checker_cycle [("fpi-bank", some 5)] (fun _ => none)
      ⟨[(1, ⟨"fpi-bank", some 2, 1, 0, some 4⟩)], [], [], []⟩) 1 = 1 := by
  have ht : ((⟨"fpi-bank", some 2, 1, 0, some 4⟩ : Settings)).threshold ≤
      |(5 : ℚ) - 4| := by
    rw [show (5 : ℚ) - 4 = 1 from by norm_num, abs_one]
  have h := price_checker_cycle_per_user [("fpi-bank", some 5)] (fun _ => none)
    ⟨[(1, ⟨"fpi-bank", some 2, 1, 0, some 4⟩)], [], [], []⟩ 1
    ⟨"fpi-bank", some 2, 1, 0, some 4⟩ 5 (by decide)
    (List.mem_cons_self _ _) (by decide) rfl
  exact (h.2.1 2 4 rfl rfl ht).1 rfl

end CryptoTracker
